import Mathlib

/-!
# Verification of the batched execution pipeline of `src/src/api.cu`

Shallow embedding of `TRITONBACKEND_ModelInstanceExecute`
(`src/src/api.cu`, lines 163-294).  The entry point receives a list of
`request_count` requests, obtains the instance/model state and the target
memory space, asks `get_input_batches` for a list of batches (each with an
extent `[first, second)` into the request list and a list of per-request
input shapes), and then, for each batch: reads a batch-start timestamp,
accumulates `total_inference_count` and computes output shapes, calls
`construct_responses` (outside the inner try), and inside the inner try
calls `get_output_batch`, `predict`, `sync`, sends the success responses,
reports a per-batch statistic (failures of which are caught and logged),
and releases the batch's requests.  A failure inside the inner try sends
error responses for the extent, reports a failure statistic and releases
the extent.  A failure outside the inner try (planning or
`construct_responses`) reaches the outer catch, which sends the same error
to every request from `end_request` to the end, reports an aggregate
failure statistic, releases those requests and returns the error.

The embedding is a pure function `execute : Env → Nat → ExecResult`.
`Env` injects the outcome (success or a thrown `TritonException`, coded as
a `Nat`) of every external call the C++ can observe failing; timestamps
are modelled by a logical clock incremented at every
`std::chrono::steady_clock::now()` call.  All externally visible actions
(responses sent, requests released, `predict`/`sync` calls, statistics
reported, logged statistics failures) are collected in order in an event
trace, so that the claims become trace properties.
-/

/-- Error code of a thrown `TritonException`. -/
abbrev Err := Nat

/-- Externally visible actions of one invocation, in program order.
`sendSuccess req shape` is the success response routed to request `req`
carrying an output tensor of shape `shape`; `sendError req e` is an error
response; `release req` is `TRITONBACKEND_RequestRelease`;
`predictCall`/`syncCall` record the compute calls for a batch index;
`statRange first second success t1 t2 t3 t4` is `report_statistics` over
the requests `[first, second)` with the four timestamps
(batch-enter, compute-enter, compute-exit, batch-exit); `statAgg` is the
aggregate (count-based) overload; `logStatError` is the `log_error` call
in a statistics catch block. -/
inductive Event where
  | sendSuccess (req : Nat) (shape : List Nat)
  | sendError (req : Nat) (e : Err)
  | release (req : Nat)
  | predictCall (batchIdx : Nat)
  | syncCall (batchIdx : Nat)
  | statRange (first second : Nat) (success : Bool) (t1 t2 t3 t4 : Nat)
  | statAgg (count t1 t2 t3 t4 : Nat)
  | logStatError
deriving DecidableEq

/-- The field `batch.extent`: the `[first, second)` index range into the original
request list covered by a batch (`std::pair<std::size_t, std::size_t>`). -/
structure Extent where
  first : Nat
  second : Nat
deriving DecidableEq

/-- One batch produced by `get_input_batches`: its extent and the list of
input shapes (`batch.shapes`), one shape per covered request, with the
row count in position 0. -/
structure Batch where
  extent : Extent
  shapes : List (List Nat)
deriving DecidableEq

/-- Failure injection for the calls made while handling one batch:
`constructErr` — `construct_responses` throws (outside the inner try);
`outputErr` — `get_output_batch` throws; `predictErr` — `predict` throws;
`syncErr` — `output_batch.sync()` throws; `statFail` — the
`report_statistics` call for this batch throws. -/
structure BatchEnv where
  constructErr : Option Err
  outputErr : Option Err
  predictErr : Option Err
  syncErr : Option Err
  statFail : Bool
deriving DecidableEq

/-- Failure injection for one invocation.  `preErr`: a throw while
obtaining the instance state, the model state or the target memory space
(lines 173-175).  `planOutcome`: the result of `get_input_batches` —
either the batch list or a thrown planning error.  `benv i` governs the
calls made for the `i`-th batch.  `abortStatFail` / `finalStatFail`
govern the `report_statistics` call of the outer catch and of the final
aggregate report.  `predict_proba` and `num_class` are the model-state
configuration read during output-shape planning. -/
structure Env where
  preErr : Option Err
  planOutcome : Except Err (List Batch)
  benv : Nat → BatchEnv
  abortStatFail : Bool
  finalStatFail : Bool
  predict_proba : Bool
  num_class : Nat

/-- The value `input_shape[0]`: the row count of one request's input shape. -/
def rowCount (ishape : List Nat) : Nat := ishape.headD 0

/-- Lines 194-197: `output_shape = {input_shape[0]}`, then if
`model_state->predict_proba` push `model_state->num_class()`. -/
def outputShape (pp : Bool) (nc : Nat) (ishape : List Nat) : List Nat :=
  if pp then [rowCount ishape, nc] else [rowCount ishape]

/-- Lines 190-199: the per-request output shapes planned for a batch. -/
def outputShapes (pp : Bool) (nc : Nat) (shapes : List (List Nat)) : List (List Nat) :=
  shapes.map (outputShape pp nc)

/-- Line 193: the rows a batch contributes to `total_inference_count`. -/
def batchRows (shapes : List (List Nat)) : Nat := (shapes.map rowCount).sum

/-- Total rows over a batch list. -/
def totalRows (bs : List Batch) : Nat := (bs.map (fun b => batchRows b.shapes)).sum

/-- Model of `send_responses(responses, err)` / `send_error_responses` over the
request indices `[lo, hi)`. -/
def sendErrs (e : Err) (lo hi : Nat) : List Event :=
  (List.range' lo (hi - lo)).map (fun j => Event.sendError j e)

/-- Model of `send_responses(responses)` over `[lo, hi)`: request `j` receives the
output tensor whose shape is entry `j - lo` of the planned shapes. -/
def sendSuccs (oshapes : List (List Nat)) (lo hi : Nat) : List Event :=
  (List.range' lo (hi - lo)).map (fun j => Event.sendSuccess j (oshapes.getD (j - lo) []))

/-- Model of `release_requests` over `[lo, hi)`. -/
def releases (lo hi : Nat) : List Event :=
  (List.range' lo (hi - lo)).map Event.release

/-- Inner catch block, lines 236-251: error responses for the extent, a
failure statistic (caught and logged when it throws itself; its last two
arguments are two fresh `now()` readings), then release.  Returns the
events and the advanced clock. -/
def failSeg (be : BatchEnv) (b : Batch) (e : Err) (batchStart clock : Nat) :
    List Event × Nat :=
  (sendErrs e b.extent.first b.extent.second ++
     (if be.statFail then [Event.logStatError]
      else [Event.statRange b.extent.first b.extent.second false
              batchStart batchStart clock (clock + 1)]) ++
     releases b.extent.first b.extent.second,
   clock + 2)

/-- Inner try block, lines 207-235, entered at logical time `clock`:
`get_output_batch`, then `batch_compute_start_time = now()`, `predict`,
`batch_compute_end_time = now()`, `sync`, success responses, the success
statistic (whose last argument is a fresh `now()`), release.  Any throw
goes to the inner catch (`failSeg`). -/
def innerTry (be : BatchEnv) (bIdx : Nat) (b : Batch) (pp : Bool) (nc : Nat)
    (batchStart clock : Nat) : List Event × Nat :=
  match be.outputErr with
  | some e => failSeg be b e batchStart clock
  | none =>
    match be.predictErr with
    | some e =>
        (Event.predictCall bIdx :: (failSeg be b e batchStart (clock + 1)).1,
         (failSeg be b e batchStart (clock + 1)).2)
    | none =>
      match be.syncErr with
      | some e =>
          (Event.predictCall bIdx :: (failSeg be b e batchStart (clock + 2)).1,
           (failSeg be b e batchStart (clock + 2)).2)
      | none =>
          (Event.predictCall bIdx :: Event.syncCall bIdx ::
             (sendSuccs (outputShapes pp nc b.shapes) b.extent.first b.extent.second ++
              (if be.statFail then [Event.logStatError]
               else [Event.statRange b.extent.first b.extent.second true
                       batchStart clock (clock + 1) (clock + 2)]) ++
              releases b.extent.first b.extent.second),
           clock + 3)

/-- Outcome of one iteration of the batch loop: either the loop continues
(`cont`), or `construct_responses` threw and control escapes to the outer
catch (`abortStep`), with `responses` still empty. -/
inductive BatchStep where
  | cont (events : List Event) (clock tot : Nat)
  | abortStep (events : List Event) (clock tot : Nat) (e : Err)

/-- One iteration of the loop at lines 186-252: `batch_start_time = now()`
(the entry `clock`), the shape loop accumulating `total_inference_count`,
`construct_responses` (outside the inner try; a throw here aborts to the
outer catch with no events emitted for this batch), then the inner try. -/
def processBatch (env : Env) (bIdx : Nat) (b : Batch) (clock tot : Nat) : BatchStep :=
  match (env.benv bIdx).constructErr with
  | some e => .abortStep [] (clock + 1) (tot + batchRows b.shapes) e
  | none =>
      .cont (innerTry (env.benv bIdx) bIdx b env.predict_proba env.num_class clock (clock + 1)).1
            (innerTry (env.benv bIdx) bIdx b env.predict_proba env.num_class clock (clock + 1)).2
            (tot + batchRows b.shapes)

/-- Result of running the batch loop: the trace, final clock,
`total_inference_count`, `end_request`, and `some e` when control escaped
to the outer catch. -/
structure RunResult where
  events : List Event
  clock : Nat
  tot : Nat
  endReq : Nat
  err : Option Err
deriving DecidableEq

/-- The batch loop.  On `cont`, `end_request` becomes `batch.extent.second`
(lines 222 and 239 both set it on every continuing path); on `abortStep`
it keeps its previous value. -/
def runBatches (env : Env) (bIdx : Nat) (bs : List Batch) (clock tot endReq : Nat) :
    RunResult :=
  match bs with
  | [] => ⟨[], clock, tot, endReq, none⟩
  | b :: rest =>
    match processBatch env bIdx b clock tot with
    | .cont evs clock1 tot1 =>
        ⟨evs ++ (runBatches env (bIdx + 1) rest clock1 tot1 b.extent.second).events,
         (runBatches env (bIdx + 1) rest clock1 tot1 b.extent.second).clock,
         (runBatches env (bIdx + 1) rest clock1 tot1 b.extent.second).tot,
         (runBatches env (bIdx + 1) rest clock1 tot1 b.extent.second).endReq,
         (runBatches env (bIdx + 1) rest clock1 tot1 b.extent.second).err⟩
    | .abortStep evs clock1 tot1 e => ⟨evs, clock1, tot1, endReq, some e⟩

/-- Outer catch block, lines 254-275: `send_responses(responses, err)` is
a no-op (`responses` is empty on every path that reaches it here), then
error responses for `[end_request, n)`, `all_end_time = now()` (the
`clock` argument), the aggregate failure statistic (caught and logged when
it throws), then release of `[end_request, n)`. -/
def abortSeg (env : Env) (n endReq allStart clock : Nat) (e : Err) : List Event :=
  sendErrs e endReq n ++
    (if env.abortStatFail then [Event.logStatError]
     else [Event.statRange endReq n false allStart allStart clock clock]) ++
    releases endReq n

/-- Final result of one invocation: the trace and the returned
`TRITONSERVER_Error*` (`none` = success). -/
structure ExecResult where
  events : List Event
  ret : Option Err
deriving DecidableEq

/-- The entry point `TRITONBACKEND_ModelInstanceExecute`, lines 163-294.
`all_start_time = now()` is clock reading 0.  A `preErr` returns
immediately from the outer catch with an empty trace.  A planning throw
from `get_input_batches` reaches the outer catch with `end_request = 0`.
Otherwise the batch loop runs; if it escapes, the outer catch handles
`[end_request, n)` and returns the error; if it completes, the final
aggregate success statistic (lines 278-287) is reported with
`total_inference_count` and `all_start_time`/`all_end_time`, and the
invocation returns success. -/
def execute (env : Env) (n : Nat) : ExecResult :=
  match env.preErr with
  | some e => ⟨[], some e⟩
  | none =>
    match env.planOutcome with
    | .error e => ⟨abortSeg env n 0 0 1 e, some e⟩
    | .ok bs =>
      match (runBatches env 0 bs 1 0 0).err with
      | some e =>
          ⟨(runBatches env 0 bs 1 0 0).events ++
             abortSeg env n (runBatches env 0 bs 1 0 0).endReq 0
               (runBatches env 0 bs 1 0 0).clock e,
           some e⟩
      | none =>
          ⟨(runBatches env 0 bs 1 0 0).events ++
             (if env.finalStatFail then [Event.logStatError]
              else [Event.statAgg (runBatches env 0 bs 1 0 0).tot 0 0
                      (runBatches env 0 bs 1 0 0).clock
                      (runBatches env 0 bs 1 0 0).clock]),
           none⟩

/-- Is `ev` a terminal response (success or error) for request `i`? -/
def isTermFor (i : Nat) : Event → Bool
  | .sendSuccess j _ => j == i
  | .sendError j _ => j == i
  | _ => false

/-- Is `ev` a release of request `i`? -/
def isRelFor (i : Nat) : Event → Bool
  | .release j => j == i
  | _ => false

/-- Number of terminal responses sent to request `i` in a trace. -/
def termCount (evs : List Event) (i : Nat) : Nat := evs.countP (isTermFor i)

/-- Number of releases of request `i` in a trace. -/
def relCount (evs : List Event) (i : Nat) : Nat := evs.countP (isRelFor i)

/-- Core (non-telemetry) events: responses, releases, compute calls. -/
def isCore : Event → Bool
  | .statRange _ _ _ _ _ _ _ => false
  | .statAgg _ _ _ _ _ => false
  | .logStatError => false
  | _ => true

/-- The extents of `bs` are contiguous from `start` and end at `n`
(the `get_input_batches` contract: extents partition the request range). -/
def chainFromB (start : Nat) (bs : List Batch) (n : Nat) : Bool :=
  match bs with
  | [] => start == n
  | b :: rest =>
      b.extent.first == start && decide (start ≤ b.extent.second) &&
        chainFromB b.extent.second rest n

/-- First compute-stage failure of a batch environment
(`get_output_batch`, then `predict`, then `sync`). -/
def computeFailure (be : BatchEnv) : Option Err :=
  match be.outputErr with
  | some e => some e
  | none =>
    match be.predictErr with
    | some e => some e
    | none => be.syncErr

/-- The same environment with every statistics-reporting failure removed. -/
def clearStatFails (env : Env) : Env :=
  { env with
    benv := fun j => { env.benv j with statFail := false },
    abortStatFail := false,
    finalStatFail := false }

/-- Counting an indicator predicate over a mapped index range. -/
theorem countP_map_range' (f : Nat → Event) (p : Event → Bool) (i : Nat)
    (hf : ∀ j, p (f j) = (j == i)) :
    ∀ (len lo : Nat), ((List.range' lo len).map f).countP p =
      if lo ≤ i ∧ i < lo + len then 1 else 0 := by
  intro len
  induction len with
  | zero => intro lo; rw [if_neg (by omega)]; simp
  | succ m ih =>
    intro lo
    rw [List.range'_succ]
    simp only [List.map_cons, List.countP_cons, ih, hf, beq_iff_eq]
    by_cases h : lo = i
    · rw [if_neg (by omega), if_pos h, if_pos (by omega)]
    · rw [if_neg h]
      by_cases h2 : lo + 1 ≤ i ∧ i < lo + 1 + m
      · rw [if_pos h2, if_pos (by omega)]
      · rw [if_neg h2, if_neg (by omega)]

/-- Counting a predicate that never holds over a mapped index range. -/
theorem countP_map_range'_zero (f : Nat → Event) (p : Event → Bool)
    (hf : ∀ j, p (f j) = false) :
    ∀ (len lo : Nat), ((List.range' lo len).map f).countP p = 0 := by
  intro len
  induction len with
  | zero => intro lo; simp
  | succ m ih =>
    intro lo
    rw [List.range'_succ]
    simp only [List.map_cons, List.countP_cons, ih, hf]
    simp

theorem termCount_append (l1 l2 : List Event) (i : Nat) :
    termCount (l1 ++ l2) i = termCount l1 i + termCount l2 i :=
  List.countP_append _ _ _

theorem relCount_append (l1 l2 : List Event) (i : Nat) :
    relCount (l1 ++ l2) i = relCount l1 i + relCount l2 i :=
  List.countP_append _ _ _

theorem termCount_cons (ev : Event) (l : List Event) (i : Nat) :
    termCount (ev :: l) i = termCount l i + (if isTermFor i ev then 1 else 0) :=
  List.countP_cons _ ev l

theorem relCount_cons (ev : Event) (l : List Event) (i : Nat) :
    relCount (ev :: l) i = relCount l i + (if isRelFor i ev then 1 else 0) :=
  List.countP_cons _ ev l

theorem termCount_singleton (ev : Event) (i : Nat) :
    termCount [ev] i = if isTermFor i ev then 1 else 0 := by
  simp [termCount, List.countP_cons]

theorem relCount_singleton (ev : Event) (i : Nat) :
    relCount [ev] i = if isRelFor i ev then 1 else 0 := by
  simp [relCount, List.countP_cons]

theorem termCount_sendErrs (e lo hi i : Nat) :
    termCount (sendErrs e lo hi) i = if lo ≤ i ∧ i < hi then 1 else 0 := by
  unfold termCount sendErrs
  rw [countP_map_range' _ _ i (fun j => rfl)]
  by_cases h1 : lo ≤ i ∧ i < lo + (hi - lo)
  · rw [if_pos h1, if_pos (by omega)]
  · rw [if_neg h1, if_neg (by omega)]

theorem termCount_sendSuccs (os : List (List Nat)) (lo hi i : Nat) :
    termCount (sendSuccs os lo hi) i = if lo ≤ i ∧ i < hi then 1 else 0 := by
  unfold termCount sendSuccs
  rw [countP_map_range' _ _ i (fun j => rfl)]
  by_cases h1 : lo ≤ i ∧ i < lo + (hi - lo)
  · rw [if_pos h1, if_pos (by omega)]
  · rw [if_neg h1, if_neg (by omega)]

theorem relCount_releases (lo hi i : Nat) :
    relCount (releases lo hi) i = if lo ≤ i ∧ i < hi then 1 else 0 := by
  unfold relCount releases
  rw [countP_map_range' _ _ i (fun j => rfl)]
  by_cases h1 : lo ≤ i ∧ i < lo + (hi - lo)
  · rw [if_pos h1, if_pos (by omega)]
  · rw [if_neg h1, if_neg (by omega)]

theorem termCount_releases (lo hi i : Nat) : termCount (releases lo hi) i = 0 :=
  countP_map_range'_zero _ _ (fun _ => rfl) _ _

theorem relCount_sendErrs (e lo hi i : Nat) : relCount (sendErrs e lo hi) i = 0 :=
  countP_map_range'_zero _ _ (fun _ => rfl) _ _

theorem relCount_sendSuccs (os : List (List Nat)) (lo hi i : Nat) :
    relCount (sendSuccs os lo hi) i = 0 :=
  countP_map_range'_zero _ _ (fun _ => rfl) _ _

/-- The statistics slot (a successful report or a logged failure)
contributes no terminal response. -/
theorem termCount_statSlot (c : Bool) (ev : Event) (i : Nat)
    (h : isTermFor i ev = false) :
    termCount (if c then [Event.logStatError] else [ev]) i = 0 := by
  cases c
  · simp [termCount_singleton, h]
  · simp [termCount_singleton, isTermFor]

theorem relCount_statSlot (c : Bool) (ev : Event) (i : Nat)
    (h : isRelFor i ev = false) :
    relCount (if c then [Event.logStatError] else [ev]) i = 0 := by
  cases c
  · simp [relCount_singleton, h]
  · simp [relCount_singleton, isRelFor]

/-- The inner catch block routes exactly one terminal response to each
request of the extent and none outside it. -/
theorem termCount_failSeg (be : BatchEnv) (b : Batch) (e bStart clock i : Nat) :
    termCount (failSeg be b e bStart clock).1 i =
      if b.extent.first ≤ i ∧ i < b.extent.second then 1 else 0 := by
  unfold failSeg
  simp only [termCount_append, termCount_sendErrs, termCount_releases]
  rw [termCount_statSlot be.statFail
    (Event.statRange b.extent.first b.extent.second false bStart bStart clock (clock + 1)) i rfl]
  omega

theorem relCount_failSeg (be : BatchEnv) (b : Batch) (e bStart clock i : Nat) :
    relCount (failSeg be b e bStart clock).1 i =
      if b.extent.first ≤ i ∧ i < b.extent.second then 1 else 0 := by
  unfold failSeg
  simp only [relCount_append, relCount_sendErrs, relCount_releases]
  rw [relCount_statSlot be.statFail
    (Event.statRange b.extent.first b.extent.second false bStart bStart clock (clock + 1)) i rfl]
  omega

/-- Whatever the outcome of the inner try, exactly the requests of the
extent receive a terminal response, once each. -/
theorem termCount_innerTry (be : BatchEnv) (bIdx : Nat) (b : Batch) (pp : Bool)
    (nc bStart clock i : Nat) :
    termCount (innerTry be bIdx b pp nc bStart clock).1 i =
      if b.extent.first ≤ i ∧ i < b.extent.second then 1 else 0 := by
  unfold innerTry
  cases be.outputErr with
  | some e => exact termCount_failSeg ..
  | none =>
    cases be.predictErr with
    | some e => simp only [termCount_cons, termCount_failSeg]; simp [isTermFor]
    | none =>
      cases be.syncErr with
      | some e => simp only [termCount_cons, termCount_failSeg]; simp [isTermFor]
      | none =>
        simp only [termCount_cons, termCount_append, termCount_sendSuccs,
          termCount_releases]
        rw [termCount_statSlot be.statFail
          (Event.statRange b.extent.first b.extent.second true bStart clock (clock + 1) (clock + 2)) i rfl]
        simp [isTermFor]

/-- Whatever the outcome of the inner try, exactly the requests of the
extent are released, once each. -/
theorem relCount_innerTry (be : BatchEnv) (bIdx : Nat) (b : Batch) (pp : Bool)
    (nc bStart clock i : Nat) :
    relCount (innerTry be bIdx b pp nc bStart clock).1 i =
      if b.extent.first ≤ i ∧ i < b.extent.second then 1 else 0 := by
  unfold innerTry
  cases be.outputErr with
  | some e => exact relCount_failSeg ..
  | none =>
    cases be.predictErr with
    | some e => simp only [relCount_cons, relCount_failSeg]; simp [isRelFor]
    | none =>
      cases be.syncErr with
      | some e => simp only [relCount_cons, relCount_failSeg]; simp [isRelFor]
      | none =>
        simp only [relCount_cons, relCount_append, relCount_sendSuccs,
          relCount_releases]
        rw [relCount_statSlot be.statFail
          (Event.statRange b.extent.first b.extent.second true bStart clock (clock + 1) (clock + 2)) i rfl]
        simp [isRelFor]

/-- A contiguous extent chain never points past `n`. -/
theorem chainFromB_le (n : Nat) :
    ∀ (bs : List Batch) (s : Nat), chainFromB s bs n = true → s ≤ n := by
  intro bs
  induction bs with
  | nil => intro s h; simp [chainFromB] at h; omega
  | cons b rest ih =>
    intro s h
    simp only [chainFromB, Bool.and_eq_true, beq_iff_eq, decide_eq_true_eq] at h
    obtain ⟨⟨hfst, hle⟩, hrest⟩ := h
    exact le_trans hle (ih _ hrest)

/-- Loop invariant of the batch loop under the planner contract that the
extents are contiguous: `end_request` only advances and stays within `n`;
a loop that completes without escaping has `end_request = n`; and the
loop's trace routes exactly one terminal response and exactly one release
to each request in `[endReq, finalEndReq)` and none to any other
request. -/
theorem runBatches_master (env : Env) (n : Nat) :
    ∀ (bs : List Batch) (bIdx clock tot endReq : Nat),
      chainFromB endReq bs n = true →
      (endReq ≤ (runBatches env bIdx bs clock tot endReq).endReq ∧
       (runBatches env bIdx bs clock tot endReq).endReq ≤ n) ∧
      ((runBatches env bIdx bs clock tot endReq).err = none →
        (runBatches env bIdx bs clock tot endReq).endReq = n) ∧
      (∀ i, termCount (runBatches env bIdx bs clock tot endReq).events i =
        if endReq ≤ i ∧ i < (runBatches env bIdx bs clock tot endReq).endReq then 1 else 0) ∧
      (∀ i, relCount (runBatches env bIdx bs clock tot endReq).events i =
        if endReq ≤ i ∧ i < (runBatches env bIdx bs clock tot endReq).endReq then 1 else 0) := by
  intro bs
  induction bs with
  | nil =>
    intro bIdx clock tot endReq hch
    have hn : endReq = n := by simpa [chainFromB] using hch
    simp only [runBatches]
    refine ⟨⟨le_refl _, by omega⟩, fun _ => hn, fun i => ?_, fun i => ?_⟩
    · rw [if_neg (by omega)]; rfl
    · rw [if_neg (by omega)]; rfl
  | cons b rest ih =>
    intro bIdx clock tot endReq hch
    simp only [chainFromB, Bool.and_eq_true, beq_iff_eq, decide_eq_true_eq] at hch
    obtain ⟨⟨hfst, hle⟩, hrest⟩ := hch
    have hsn : b.extent.second ≤ n := chainFromB_le n rest _ hrest
    simp only [runBatches]
    cases hc : (env.benv bIdx).constructErr with
    | some e =>
      simp only [processBatch, hc]
      refine ⟨⟨le_refl _, by omega⟩, fun h => by simp at h, fun i => ?_, fun i => ?_⟩
      · rw [if_neg (by omega)]; rfl
      · rw [if_neg (by omega)]; rfl
    | none =>
      simp only [processBatch, hc]
      have hT := termCount_innerTry (env.benv bIdx) bIdx b env.predict_proba
        env.num_class clock (clock + 1)
      have hR := relCount_innerTry (env.benv bIdx) bIdx b env.predict_proba
        env.num_class clock (clock + 1)
      obtain ⟨⟨h1, h2⟩, h3, h4, h5⟩ :=
        ih (bIdx + 1)
          (innerTry (env.benv bIdx) bIdx b env.predict_proba env.num_class clock (clock + 1)).2
          (tot + batchRows b.shapes) b.extent.second hrest
      refine ⟨⟨by omega, h2⟩, h3, fun i => ?_, fun i => ?_⟩
      · rw [termCount_append, hT i, h4 i]
        split_ifs <;> omega
      · rw [relCount_append, hR i, h5 i]
        split_ifs <;> omega

/-- The outer catch block routes exactly one terminal response and one
release to each request of `[endReq, n)` and none to any other request. -/
theorem termCount_abortSeg (env : Env) (n endReq allStart clock e i : Nat) :
    termCount (abortSeg env n endReq allStart clock e) i =
      if endReq ≤ i ∧ i < n then 1 else 0 := by
  unfold abortSeg
  simp only [termCount_append, termCount_sendErrs, termCount_releases]
  rw [termCount_statSlot env.abortStatFail
    (Event.statRange endReq n false allStart allStart clock clock) i rfl]
  omega

theorem relCount_abortSeg (env : Env) (n endReq allStart clock e i : Nat) :
    relCount (abortSeg env n endReq allStart clock e) i =
      if endReq ≤ i ∧ i < n then 1 else 0 := by
  unfold abortSeg
  simp only [relCount_append, relCount_sendErrs, relCount_releases]
  rw [relCount_statSlot env.abortStatFail
    (Event.statRange endReq n false allStart allStart clock clock) i rfl]
  omega

/-- Shared counting fact: under the pre-planning success and planner
contract hypotheses, every request gets exactly one terminal response and
one release. -/
theorem exec_counts (env : Env) (n : Nat)
    (hpre : env.preErr = none)
    (hplan : ∀ bs, env.planOutcome = Except.ok bs → chainFromB 0 bs n = true) :
    ∀ i, i < n →
      termCount (execute env n).events i = 1 ∧
      relCount (execute env n).events i = 1 := by
  intro i hi
  unfold execute
  rw [hpre]
  cases hp : env.planOutcome with
  | error e =>
    rw [termCount_abortSeg, relCount_abortSeg, if_pos (by omega)]
    exact ⟨rfl, rfl⟩
  | ok bs =>
    obtain ⟨⟨h1, h2⟩, h3, h4, h5⟩ := runBatches_master env n bs 0 1 0 0 (hplan bs hp)
    cases hr : (runBatches env 0 bs 1 0 0).err with
    | some e =>
      simp only [hr]
      constructor
      · rw [termCount_append, h4 i, termCount_abortSeg]
        split_ifs <;> omega
      · rw [relCount_append, h5 i, relCount_abortSeg]
        split_ifs <;> omega
    | none =>
      have hend : (runBatches env 0 bs 1 0 0).endReq = n := h3 hr
      simp only [hr]
      constructor
      · rw [termCount_append, h4 i]
        rw [termCount_statSlot env.finalStatFail
          (Event.statAgg (runBatches env 0 bs 1 0 0).tot 0 0
            (runBatches env 0 bs 1 0 0).clock (runBatches env 0 bs 1 0 0).clock) i rfl]
        rw [if_pos (by omega)]
      · rw [relCount_append, h5 i]
        rw [relCount_statSlot env.finalStatFail
          (Event.statAgg (runBatches env 0 bs 1 0 0).tot 0 0
            (runBatches env 0 bs 1 0 0).clock (runBatches env 0 bs 1 0 0).clock) i rfl]
        rw [if_pos (by omega)]

/-- Claim C1. For every invocation of `TRITONBACKEND_ModelInstanceExecute`
in which the pre-planning steps succeed (so that one of the three
claimed exit paths — normal completion, batch-local compute failure, or
planning-level abort — is taken), and in which the batches produced by
`get_input_batches` satisfy the planner contract (contiguous extents
covering `[0, n)`), every request receives exactly one terminal outcome
(one success or error response) and is released exactly once, whatever
combination of compute failures, `construct_responses` failures, planning
failures and statistics failures occurs. -/
theorem exec_exactly_once (env : Env) (n : Nat)
    (hpre : env.preErr = none)
    (hplan : ∀ bs, env.planOutcome = Except.ok bs → chainFromB 0 bs n = true) :
    ∀ i, i < n →
      termCount (execute env n).events i = 1 ∧
      relCount (execute env n).events i = 1 :=
  exec_counts env n hpre hplan

/-- Concrete environment used by the witnesses: three requests with row
counts 4, 1 and 8, batched as extents `[0, 2)` and `[2, 3)`; the second
batch fails at `predict` with error 7 (the spec's own concrete
scenario). -/
def envW : Env :=
  { preErr := none
    planOutcome := Except.ok
      [⟨⟨0, 2⟩, [[4, 3], [1, 3]]⟩, ⟨⟨2, 3⟩, [[8, 3]]⟩]
    benv := fun j =>
      if j == 1 then ⟨none, none, some 7, none, false⟩
      else ⟨none, none, none, none, false⟩
    abortStatFail := false
    finalStatFail := false
    predict_proba := false
    num_class := 0 }

theorem exec_exactly_once_witness :
    termCount (execute envW 3).events 2 = 1 ∧
    relCount (execute envW 3).events 2 = 1 := by
  refine exec_exactly_once envW 3 rfl ?_ 2 (by omega)
  intro bs h
  injection h with hb
  rw [← hb]
  decide

/-- Claim C8. If an exception is raised before batch planning begins (while
obtaining the instance state, the model state, or resolving the target
memory space), the entry point returns that error and nothing else
happens: the trace is empty, so no response is sent and no request is
released. -/
theorem exec_preplanning_error (env : Env) (n : Nat) (e : Err)
    (h : env.preErr = some e) :
    (execute env n).ret = some e ∧ (execute env n).events = [] := by
  unfold execute
  rw [h]
  exact ⟨rfl, rfl⟩

/-- Environment whose pre-planning step throws error 3. -/
def envPre : Env :=
  { preErr := some 3
    planOutcome := Except.ok []
    benv := fun _ => ⟨none, none, none, none, false⟩
    abortStatFail := false
    finalStatFail := false
    predict_proba := false
    num_class := 0 }

theorem exec_preplanning_error_witness :
    (execute envPre 5).ret = some 3 ∧ (execute envPre 5).events = [] :=
  exec_preplanning_error envPre 5 3 rfl

/-- Claim C9. If the planner yields no batches at all, the entry point
returns success and the whole trace is a single aggregate success
statistic with unit count 0, whose batch-enter and compute-enter
timestamps both equal the invocation's start timestamp (clock reading 0)
and whose compute-exit and batch-exit timestamps equal the
`all_end_time` reading. -/
theorem exec_no_batches (env : Env) (n : Nat)
    (hpre : env.preErr = none) (hplan : env.planOutcome = Except.ok [])
    (hstat : env.finalStatFail = false) :
    (execute env n).ret = none ∧
    (execute env n).events = [Event.statAgg 0 0 0 1 1] := by
  unfold execute
  rw [hpre, hplan]
  simp [runBatches, hstat]

/-- Environment whose planner yields the empty batch list. -/
def envEmpty : Env :=
  { preErr := none
    planOutcome := Except.ok []
    benv := fun _ => ⟨none, none, none, none, false⟩
    abortStatFail := false
    finalStatFail := false
    predict_proba := false
    num_class := 0 }

theorem exec_no_batches_witness :
    (execute envEmpty 0).ret = none ∧
    (execute envEmpty 0).events = [Event.statAgg 0 0 0 1 1] :=
  exec_no_batches envEmpty 0 rfl rfl rfl

/-- Claim C4. The output shape planned (lines 190-199) for the `j`-th
request covered by a batch has first dimension equal to that request's
input row count `input_shape[0]`; with `predict_proba` enabled it is the
two-dimensional shape `(rows, num_class)`, with it disabled it is the
one-dimensional shape `(rows)`. -/
theorem outputShapes_spec (pp : Bool) (nc : Nat) (shapes : List (List Nat))
    (j : Nat) (hj : j < shapes.length) :
    (outputShapes pp nc shapes).get ⟨j, by simpa [outputShapes] using hj⟩ =
      if pp then [rowCount (shapes.get ⟨j, hj⟩), nc]
      else [rowCount (shapes.get ⟨j, hj⟩)] := by
  simp [outputShapes, outputShape]

theorem outputShapes_spec_witness :
    (outputShapes true 3 [[4, 7], [2, 7]]).get ⟨1, by decide⟩ = [2, 3] ∧
    (outputShapes false 3 [[4, 7], [2, 7]]).get ⟨1, by decide⟩ = [2] := by
  constructor
  · rw [outputShapes_spec true 3 [[4, 7], [2, 7]] 1 (by decide)]
    rfl
  · rw [outputShapes_spec false 3 [[4, 7], [2, 7]] 1 (by decide)]
    rfl

/-- Events emitted by one loop iteration (empty when
`construct_responses` throws). -/
def stepEvents (env : Env) (bIdx : Nat) (b : Batch) (clock tot : Nat) : List Event :=
  match processBatch env bIdx b clock tot with
  | .cont evs _ _ => evs
  | .abortStep evs _ _ _ => evs

/-- The value of `end_request` after the loop, assuming no escape: the `second` bound
of the last extent, or the initial value when there is no batch. -/
def lastEnd : List Batch → Nat → Nat
  | [], d => d
  | b :: rest, _ => lastEnd rest b.extent.second

/-- The value of `lastEnd` after taking `k + 1` batches is the `second` bound of batch
`k`. -/
theorem lastEnd_take (bs : List Batch) :
    ∀ (k : Nat) (hk : k < bs.length) (d : Nat),
      lastEnd (bs.take (k + 1)) d = (bs.get ⟨k, hk⟩).extent.second := by
  induction bs with
  | nil => intro k hk d; simp at hk
  | cons b rest ih =>
    intro k hk d
    cases k with
    | zero =>
      cases rest <;> rfl
    | succ m =>
      have hm : m < rest.length := by simpa using hk
      simp only [List.take, lastEnd]
      rw [ih m hm]
      rfl

/-- If no `construct_responses` call throws, the loop never escapes, the
final `total_inference_count` is the initial one plus all planned rows,
and `end_request` reaches the last extent bound. -/
theorem runBatches_noAbort (env : Env)
    (hcons : ∀ j, (env.benv j).constructErr = none) :
    ∀ (bs : List Batch) (bIdx clock tot endReq : Nat),
      (runBatches env bIdx bs clock tot endReq).err = none ∧
      (runBatches env bIdx bs clock tot endReq).tot = tot + totalRows bs ∧
      (runBatches env bIdx bs clock tot endReq).endReq = lastEnd bs endReq := by
  intro bs
  induction bs with
  | nil =>
    intro bIdx clock tot endReq
    simp [runBatches, totalRows, lastEnd]
  | cons b rest ih =>
    intro bIdx clock tot endReq
    simp only [runBatches, processBatch, hcons bIdx]
    obtain ⟨ih1, ih2, ih3⟩ :=
      ih (bIdx + 1)
        (innerTry (env.benv bIdx) bIdx b env.predict_proba env.num_class clock (clock + 1)).2
        (tot + batchRows b.shapes) b.extent.second
    refine ⟨ih1, ?_, ih3⟩
    rw [ih2]
    simp [totalRows]
    omega

/-- If the first `k` iterations do not escape, the loop trace contains
the events of iteration `k` as a contiguous segment. -/
theorem runBatches_reach (env : Env) :
    ∀ (k : Nat) (bs : List Batch) (bIdx clock tot endReq : Nat) (hk : k < bs.length),
      (∀ j, j < k → (env.benv (bIdx + j)).constructErr = none) →
      ∃ pre post c t, (runBatches env bIdx bs clock tot endReq).events =
        pre ++ stepEvents env (bIdx + k) (bs.get ⟨k, hk⟩) c t ++ post := by
  intro k
  induction k with
  | zero =>
    intro bs bIdx clock tot endReq hk hprev
    cases bs with
    | nil => simp at hk
    | cons b rest =>
      cases hc : processBatch env bIdx b clock tot with
      | cont evs c1 t1 =>
        refine ⟨[], (runBatches env (bIdx + 1) rest c1 t1 b.extent.second).events,
          clock, tot, ?_⟩
        simp [runBatches, hc, stepEvents]
      | abortStep evs c1 t1 e =>
        refine ⟨[], [], clock, tot, ?_⟩
        simp [runBatches, hc, stepEvents]
  | succ m ih =>
    intro bs bIdx clock tot endReq hk hprev
    cases bs with
    | nil => simp at hk
    | cons b rest =>
      have hc0 : (env.benv bIdx).constructErr = none := by
        have h0 := hprev 0 (by omega)
        simpa using h0
      have hm : m < rest.length := by simpa using hk
      obtain ⟨pre, post, c, t, hdec⟩ :=
        ih rest (bIdx + 1)
          (innerTry (env.benv bIdx) bIdx b env.predict_proba env.num_class clock (clock + 1)).2
          (tot + batchRows b.shapes) b.extent.second hm
          (fun j hj => by
            have hjj := hprev (j + 1) (by omega)
            have harith : bIdx + (j + 1) = bIdx + 1 + j := by omega
            rw [harith] at hjj
            exact hjj)
      have harith2 : bIdx + 1 + m = bIdx + (m + 1) := by omega
      rw [harith2] at hdec
      refine
        ⟨(innerTry (env.benv bIdx) bIdx b env.predict_proba env.num_class clock (clock + 1)).1
            ++ pre, post, c, t, ?_⟩
      simp only [runBatches, processBatch, hc0]
      rw [hdec]
      simp [List.append_assoc]

theorem sendError_mem_sendErrs (e lo hi i : Nat) (h1 : lo ≤ i) (h2 : i < hi) :
    Event.sendError i e ∈ sendErrs e lo hi := by
  unfold sendErrs
  apply List.mem_map_of_mem
  rw [List.mem_range'_1]
  omega

theorem sendSuccess_mem_sendSuccs (os : List (List Nat)) (lo hi i : Nat)
    (h1 : lo ≤ i) (h2 : i < hi) :
    Event.sendSuccess i (os.getD (i - lo) []) ∈ sendSuccs os lo hi := by
  unfold sendSuccs
  apply List.mem_map_of_mem
  rw [List.mem_range'_1]
  omega

theorem release_mem_releases (lo hi i : Nat) (h1 : lo ≤ i) (h2 : i < hi) :
    Event.release i ∈ releases lo hi := by
  unfold releases
  apply List.mem_map_of_mem
  rw [List.mem_range'_1]
  omega

/-- When the compute stage of a batch fails with `e`, the inner-try
events contain every event of the inner catch block run with error `e`
(for some compute-exit clock value `c`). -/
theorem innerTry_computeFail_mem (be : BatchEnv) (bIdx : Nat) (b : Batch)
    (pp : Bool) (nc bStart clock : Nat) (e : Err)
    (hfail : computeFailure be = some e) :
    ∃ c, ∀ ev, ev ∈ (failSeg be b e bStart c).1 →
      ev ∈ (innerTry be bIdx b pp nc bStart clock).1 := by
  unfold computeFailure at hfail
  unfold innerTry
  cases ho : be.outputErr with
  | some e0 =>
    rw [ho] at hfail
    obtain rfl : e0 = e := by injection hfail
    exact ⟨clock, fun ev h => h⟩
  | none =>
    rw [ho] at hfail
    cases hp : be.predictErr with
    | some e0 =>
      rw [hp] at hfail
      obtain rfl : e0 = e := by injection hfail
      exact ⟨clock + 1, fun ev h => List.mem_cons_of_mem _ h⟩
    | none =>
      rw [hp] at hfail
      cases hs : be.syncErr with
      | some e0 =>
        rw [hs] at hfail
        obtain rfl : e0 = e := by injection hfail
        exact ⟨clock + 2, fun ev h => List.mem_cons_of_mem _ h⟩
      | none =>
        rw [hs] at hfail
        cases hfail

/-- Claim C2. Batch-local compute failures are isolated.  If pre-planning
succeeds, the planner yields contiguous extents over `[0, n)` and no
`construct_responses` call throws, and the compute stage of batch `k`
fails with error `e`, then: the invocation returns success (every failure
is batch-local); every request of batch `k`'s extent receives the error
response carrying `e` as its only terminal response and is released
exactly once; a failure statistic for exactly that extent is reported
(with the extent's batch-enter timestamp duplicated as compute-enter);
after iteration `k` the progress marker `end_request` equals the extent's
`second` bound; and every request of the whole range — including those of
the batches after `k` — still receives exactly one terminal response, so
processing continued with the remaining batches. -/
theorem exec_compute_failure_isolated (env : Env) (n : Nat) (bs : List Batch)
    (k : Nat) (e : Err)
    (hpre : env.preErr = none) (hplan : env.planOutcome = Except.ok bs)
    (hchain : chainFromB 0 bs n = true)
    (hcons : ∀ j, (env.benv j).constructErr = none)
    (hk : k < bs.length)
    (hfail : computeFailure (env.benv k) = some e)
    (hstat : (env.benv k).statFail = false) :
    (execute env n).ret = none ∧
    (∀ i, (bs.get ⟨k, hk⟩).extent.first ≤ i → i < (bs.get ⟨k, hk⟩).extent.second →
      Event.sendError i e ∈ (execute env n).events ∧
      termCount (execute env n).events i = 1 ∧
      Event.release i ∈ (execute env n).events ∧
      relCount (execute env n).events i = 1) ∧
    (∃ t1 t3, Event.statRange (bs.get ⟨k, hk⟩).extent.first
        (bs.get ⟨k, hk⟩).extent.second false t1 t1 t3 (t3 + 1) ∈ (execute env n).events) ∧
    (runBatches env 0 (bs.take (k + 1)) 1 0 0).endReq =
      (bs.get ⟨k, hk⟩).extent.second ∧
    (∀ i, i < n → termCount (execute env n).events i = 1) := by
  have hnoab := runBatches_noAbort env hcons bs 0 1 0 0
  have hcounts := exec_counts env n hpre
    (fun bs2 h2 => by rw [hplan] at h2; injection h2 with hb; rw [← hb]; exact hchain)
  -- the events of the whole invocation, with the loop trace as a prefix
  have hev : (execute env n).events =
      (runBatches env 0 bs 1 0 0).events ++
        (if env.finalStatFail then [Event.logStatError]
         else [Event.statAgg (runBatches env 0 bs 1 0 0).tot 0 0
                 (runBatches env 0 bs 1 0 0).clock (runBatches env 0 bs 1 0 0).clock]) ∧
      (execute env n).ret = none := by
    unfold execute
    rw [hpre, hplan]
    simp [hnoab.1]
  -- the loop trace contains the events of iteration k
  obtain ⟨pre, post, c, t, hseg⟩ :=
    runBatches_reach env k bs 0 1 0 0 hk (fun j _ => by simpa using hcons j)
  have hzk : (0 : Nat) + k = k := by omega
  rw [hzk] at hseg
  -- iteration k runs the inner catch with error e
  have hstep : stepEvents env k (bs.get ⟨k, hk⟩) c t =
      (innerTry (env.benv k) k (bs.get ⟨k, hk⟩) env.predict_proba env.num_class c (c + 1)).1 := by
    unfold stepEvents processBatch
    rw [hcons k]
  obtain ⟨c2, hmem⟩ :=
    innerTry_computeFail_mem (env.benv k) k (bs.get ⟨k, hk⟩) env.predict_proba
      env.num_class c (c + 1) e hfail
  have hinexec : ∀ ev, ev ∈ (failSeg (env.benv k) (bs.get ⟨k, hk⟩) e c c2).1 →
      ev ∈ (execute env n).events := by
    intro ev h
    rw [hev.1, hseg, hstep]
    exact List.mem_append_left _
      (List.mem_append_left _ (List.mem_append_right _ (hmem ev h)))
  refine ⟨hev.2, fun i hi1 hi2 => ?_, ?_, ?_, fun i hi => (hcounts i hi).1⟩
  · have hsend : Event.sendError i e ∈ (execute env n).events := by
      apply hinexec
      unfold failSeg
      exact List.mem_append_left _
        (List.mem_append_left _ (sendError_mem_sendErrs e _ _ i hi1 hi2))
    have hrel : Event.release i ∈ (execute env n).events := by
      apply hinexec
      unfold failSeg
      refine List.mem_append_right _ ?_
      exact release_mem_releases _ _ i hi1 hi2
    have hin : i < n := by
      have h2 := chainFromB_le n (List.drop (k + 1) bs) (bs.get ⟨k, hk⟩).extent.second ?_
      · omega
      · clear hsend hrel hinexec hmem hstep hseg hev hnoab hcounts
        revert hchain
        -- chain of the drop: auxiliary induction inline
        have haux : ∀ (bs2 : List Batch) (k2 : Nat) (hk2 : k2 < bs2.length) (s : Nat),
            chainFromB s bs2 n = true →
            chainFromB (bs2.get ⟨k2, hk2⟩).extent.second (List.drop (k2 + 1) bs2) n = true := by
          intro bs2
          induction bs2 with
          | nil => intro k2 hk2; simp at hk2
          | cons b rest ih =>
            intro k2 hk2 s hch
            simp only [chainFromB, Bool.and_eq_true, beq_iff_eq, decide_eq_true_eq] at hch
            obtain ⟨⟨hfst, hle⟩, hrest⟩ := hch
            cases k2 with
            | zero => simpa using hrest
            | succ m =>
              have hm : m < rest.length := by simpa using hk2
              exact ih m hm _ hrest
        intro hchain
        exact haux bs k hk 0 hchain
    exact ⟨hsend, (hcounts i hin).1, hrel, (hcounts i hin).2⟩
  · refine ⟨c, c2, ?_⟩
    apply hinexec
    unfold failSeg
    rw [hstat]
    refine List.mem_append_left _ (List.mem_append_right _ ?_)
    simp
  · rw [(runBatches_noAbort env hcons (bs.take (k + 1)) 0 1 0 0).2.2]
    exact lastEnd_take bs k hk 0

theorem exec_compute_failure_isolated_witness :
    (execute envW 3).ret = none ∧
    Event.sendError 2 7 ∈ (execute envW 3).events ∧
    termCount (execute envW 3).events 2 = 1 ∧
    Event.release 2 ∈ (execute envW 3).events ∧
    relCount (execute envW 3).events 2 = 1 := by
  have h := exec_compute_failure_isolated envW 3
    [⟨⟨0, 2⟩, [[4, 3], [1, 3]]⟩, ⟨⟨2, 3⟩, [[8, 3]]⟩] 1 7
    rfl rfl (by decide)
    (fun j => by by_cases hj : j = 1 <;> simp [envW, hj])
    (by decide) rfl rfl
  obtain ⟨hm1, hm2, hm3, hm4⟩ := h.2.1 2 (by decide) (by decide)
  exact ⟨h.1, hm1, hm2, hm3, hm4⟩

/-- If the first `k` iterations do not escape and `construct_responses`
throws `e` in iteration `k`, the loop escapes with `e`, `end_request` is
batch `k`'s `first` bound, and the trace is exactly the trace of the
first `k` iterations. -/
theorem runBatches_abortAt (env : Env) (n : Nat) (e : Err) :
    ∀ (k : Nat) (bs : List Batch) (bIdx clock tot endReq : Nat) (hk : k < bs.length),
      chainFromB endReq bs n = true →
      (∀ j, j < k → (env.benv (bIdx + j)).constructErr = none) →
      (env.benv (bIdx + k)).constructErr = some e →
      (runBatches env bIdx bs clock tot endReq).err = some e ∧
      (runBatches env bIdx bs clock tot endReq).endReq =
        (bs.get ⟨k, hk⟩).extent.first ∧
      (runBatches env bIdx bs clock tot endReq).events =
        (runBatches env bIdx (bs.take k) clock tot endReq).events := by
  intro k
  induction k with
  | zero =>
    intro bs bIdx clock tot endReq hk hch hprev habort
    cases bs with
    | nil => simp at hk
    | cons b rest =>
      simp only [chainFromB, Bool.and_eq_true, beq_iff_eq, decide_eq_true_eq] at hch
      obtain ⟨⟨hfst, hle⟩, hrest⟩ := hch
      have habort2 : (env.benv bIdx).constructErr = some e := habort
      refine ⟨?_, ?_, ?_⟩
      · simp [runBatches, processBatch, habort2]
      · simp only [runBatches, processBatch, habort2]
        show endReq = b.extent.first
        omega
      · simp [runBatches, processBatch, habort2]
  | succ m ih =>
    intro bs bIdx clock tot endReq hk hch hprev habort
    cases bs with
    | nil => simp at hk
    | cons b rest =>
      simp only [chainFromB, Bool.and_eq_true, beq_iff_eq, decide_eq_true_eq] at hch
      obtain ⟨⟨hfst, hle⟩, hrest⟩ := hch
      have hc0 : (env.benv bIdx).constructErr = none := by
        have h0 := hprev 0 (by omega)
        simpa using h0
      have hm : m < rest.length := by simpa using hk
      have habort2 : (env.benv (bIdx + 1 + m)).constructErr = some e := by
        have harith : bIdx + 1 + m = bIdx + (m + 1) := by omega
        rw [harith]
        exact habort
      obtain ⟨ih1, ih2, ih3⟩ :=
        ih rest (bIdx + 1)
          (innerTry (env.benv bIdx) bIdx b env.predict_proba env.num_class clock (clock + 1)).2
          (tot + batchRows b.shapes) b.extent.second hm hrest
          (fun j hj => by
            have hjj := hprev (j + 1) (by omega)
            have harith : bIdx + (j + 1) = bIdx + 1 + j := by omega
            rw [harith] at hjj
            exact hjj)
          habort2
      simp only [runBatches, processBatch, hc0]
      refine ⟨ih1, ih2, ?_⟩
      rw [ih3]

/-- Events of kind `predictCall` never occur in the inner catch block. -/
theorem predictCall_not_mem_failSeg (be : BatchEnv) (b : Batch)
    (e bStart clock j : Nat) :
    Event.predictCall j ∉ (failSeg be b e bStart clock).1 := by
  unfold failSeg sendErrs releases
  intro h
  rcases List.mem_append.mp h with h | h
  · rcases List.mem_append.mp h with h | h
    · rcases List.mem_map.mp h with ⟨x, _, hx⟩
      cases hx
    · cases hs : be.statFail <;> rw [hs] at h <;> simp at h
  · rcases List.mem_map.mp h with ⟨x, _, hx⟩
    cases hx

/-- A `predictCall` event of the inner try carries that batch's index. -/
theorem predictCall_mem_innerTry (be : BatchEnv) (bIdx : Nat) (b : Batch)
    (pp : Bool) (nc bStart clock j : Nat)
    (h : Event.predictCall j ∈ (innerTry be bIdx b pp nc bStart clock).1) :
    j = bIdx := by
  unfold innerTry at h
  cases ho : be.outputErr with
  | some e =>
    simp only [ho] at h
    exact absurd h (predictCall_not_mem_failSeg be b e bStart clock j)
  | none =>
    simp only [ho] at h
    cases hp : be.predictErr with
    | some e =>
      simp only [hp] at h
      rcases List.mem_cons.mp h with h | h
      · exact Event.predictCall.inj h
      · exact absurd h (predictCall_not_mem_failSeg be b e bStart (clock + 1) j)
    | none =>
      simp only [hp] at h
      cases hs : be.syncErr with
      | some e =>
        simp only [hs] at h
        rcases List.mem_cons.mp h with h | h
        · exact Event.predictCall.inj h
        · exact absurd h (predictCall_not_mem_failSeg be b e bStart (clock + 2) j)
      | none =>
        simp only [hs] at h
        rcases List.mem_cons.mp h with h | h
        · exact Event.predictCall.inj h
        · rcases List.mem_cons.mp h with h | h
          · cases h
          · rcases List.mem_append.mp h with h | h
            · rcases List.mem_append.mp h with h | h
              · unfold sendSuccs at h
                rcases List.mem_map.mp h with ⟨x, _, hx⟩
                cases hx
              · cases hsf : be.statFail <;> rw [hsf] at h <;> simp at h
            · unfold releases at h
              rcases List.mem_map.mp h with ⟨x, _, hx⟩
              cases hx

/-- A `predictCall` event of the loop trace carries a batch index below
`bIdx + bs.length`: no compute call is made for batches the loop never
reached. -/
theorem predictCall_mem_runBatches (env : Env) (j : Nat) :
    ∀ (bs : List Batch) (bIdx clock tot endReq : Nat),
      Event.predictCall j ∈ (runBatches env bIdx bs clock tot endReq).events →
      j < bIdx + bs.length := by
  intro bs
  induction bs with
  | nil =>
    intro bIdx clock tot endReq h
    simp [runBatches] at h
  | cons b rest ih =>
    intro bIdx clock tot endReq h
    cases hc : (env.benv bIdx).constructErr with
    | some e =>
      simp only [runBatches, processBatch, hc] at h
      simp at h
    | none =>
      simp only [runBatches, processBatch, hc] at h
      rcases List.mem_append.mp h with h | h
      · have hji := predictCall_mem_innerTry (env.benv bIdx) bIdx b env.predict_proba
          env.num_class clock (clock + 1) j h
        simp only [List.length_cons]
        omega
      · have hji := ih (bIdx + 1) _ _ _ h
        simp only [List.length_cons]
        omega

/-- Events of kind `predictCall` never occur in the outer catch block. -/
theorem predictCall_not_mem_abortSeg (env : Env)
    (n endReq allStart clock e j : Nat) :
    Event.predictCall j ∉ abortSeg env n endReq allStart clock e := by
  unfold abortSeg sendErrs releases
  intro h
  rcases List.mem_append.mp h with h | h
  · rcases List.mem_append.mp h with h | h
    · rcases List.mem_map.mp h with ⟨x, _, hx⟩
      cases hx
    · cases hs : env.abortStatFail <;> rw [hs] at h <;> simp at h
  · rcases List.mem_map.mp h with ⟨x, _, hx⟩
    cases hx

/-- Claim C3. Planning-level failures abort the remainder.  If pre-planning
succeeds, the first `k` iterations do not escape, and forming batch `k`
fails (its `construct_responses` call throws `e`), then the invocation
returns `e`; the whole trace is the unchanged trace of the first `k`
iterations (requests handled earlier retain their earlier outcomes)
followed by the outer catch block: the same error response `e` for every
request from the progress point (batch `k`'s `first` bound) to the end of
the range, one aggregate failure statistic covering exactly that
remainder, and a release of each of those requests; and no compute call
is made for batch `k` or any later batch. -/
theorem exec_planning_abort (env : Env) (n : Nat) (bs : List Batch) (k : Nat)
    (e : Err)
    (hpre : env.preErr = none) (hplan : env.planOutcome = Except.ok bs)
    (hchain : chainFromB 0 bs n = true)
    (hk : k < bs.length)
    (hprev : ∀ j, j < k → (env.benv j).constructErr = none)
    (habort : (env.benv k).constructErr = some e)
    (hstat : env.abortStatFail = false) :
    (execute env n).ret = some e ∧
    (∃ c, (execute env n).events =
      (runBatches env 0 (bs.take k) 1 0 0).events ++
        (sendErrs e (bs.get ⟨k, hk⟩).extent.first n ++
         [Event.statRange (bs.get ⟨k, hk⟩).extent.first n false 0 0 c c] ++
         releases (bs.get ⟨k, hk⟩).extent.first n)) ∧
    (∀ j, k ≤ j → Event.predictCall j ∉ (execute env n).events) ∧
    (∀ i, (bs.get ⟨k, hk⟩).extent.first ≤ i → i < n →
      Event.sendError i e ∈ (execute env n).events ∧
      Event.release i ∈ (execute env n).events) := by
  have hprev0 : ∀ j, j < k → (env.benv (0 + j)).constructErr = none := by
    intro j hj
    rw [Nat.zero_add]
    exact hprev j hj
  have habort0 : (env.benv (0 + k)).constructErr = some e := by
    rw [Nat.zero_add]
    exact habort
  obtain ⟨ha1, ha2, ha3⟩ :=
    runBatches_abortAt env n e k bs 0 1 0 0 hk hchain hprev0 habort0
  have hret : (execute env n).ret = some e := by
    unfold execute
    rw [hpre, hplan]
    simp [ha1]
  have hev : (execute env n).events =
      (runBatches env 0 bs 1 0 0).events ++
        abortSeg env n (runBatches env 0 bs 1 0 0).endReq 0
          (runBatches env 0 bs 1 0 0).clock e := by
    unfold execute
    rw [hpre, hplan]
    simp [ha1]
  refine ⟨hret, ⟨(runBatches env 0 bs 1 0 0).clock, ?_⟩, ?_, ?_⟩
  · rw [hev, ha3, ha2]
    simp [abortSeg, hstat]
  · intro j hj hmem
    rw [hev] at hmem
    rcases List.mem_append.mp hmem with hmem | hmem
    · rw [ha3] at hmem
      have hlt := predictCall_mem_runBatches env j (bs.take k) 0 1 0 0 hmem
      rw [List.length_take] at hlt
      omega
    · exact predictCall_not_mem_abortSeg env n _ 0 _ e j hmem
  · intro i h1 h2
    rw [hev, ha2]
    constructor
    · refine List.mem_append_right _ ?_
      unfold abortSeg
      exact List.mem_append_left _
        (List.mem_append_left _ (sendError_mem_sendErrs e _ _ i h1 h2))
    · refine List.mem_append_right _ ?_
      unfold abortSeg
      exact List.mem_append_right _ (release_mem_releases _ _ i h1 h2)

/-- Environment for the planning-abort witness: two batches over three
requests; forming batch 1 fails with error 9 after batch 0 was fully
handled. -/
def envAbort : Env :=
  { preErr := none
    planOutcome := Except.ok [⟨⟨0, 1⟩, [[2, 5]]⟩, ⟨⟨1, 3⟩, [[6, 5], [1, 5]]⟩]
    benv := fun j =>
      if j = 1 then ⟨some 9, none, none, none, false⟩
      else ⟨none, none, none, none, false⟩
    abortStatFail := false
    finalStatFail := false
    predict_proba := true
    num_class := 5 }

theorem exec_planning_abort_witness :
    (execute envAbort 3).ret = some 9 ∧
    Event.sendError 1 9 ∈ (execute envAbort 3).events ∧
    Event.release 2 ∈ (execute envAbort 3).events ∧
    Event.predictCall 1 ∉ (execute envAbort 3).events := by
  have h := exec_planning_abort envAbort 3
    [⟨⟨0, 1⟩, [[2, 5]]⟩, ⟨⟨1, 3⟩, [[6, 5], [1, 5]]⟩] 1 9
    rfl rfl (by decide) (by decide)
    (fun j hj => by
      have hj0 : j = 0 := by omega
      subst hj0
      rfl)
    rfl rfl
  exact ⟨h.1, (h.2.2.2 1 (by decide) (by decide)).1,
    (h.2.2.2 2 (by decide) (by decide)).2, h.2.2.1 1 (by omega)⟩

/-- Claim C7. For every batch whose compute step succeeds, the `sync` call
on the staged output batch happens after the `predict` call and before
any success response of that batch's extent is sent: the trace contains
`predictCall`, then `syncCall`, then the success response, in this order
(as a sublist of the invocation trace).  The routed success response
carries the planned output shape. -/
theorem exec_sync_before_send (env : Env) (n : Nat) (bs : List Batch) (k : Nat)
    (hpre : env.preErr = none) (hplan : env.planOutcome = Except.ok bs)
    (hk : k < bs.length)
    (hprev : ∀ j, j < k → (env.benv j).constructErr = none)
    (hb1 : (env.benv k).constructErr = none)
    (hb2 : (env.benv k).outputErr = none)
    (hb3 : (env.benv k).predictErr = none)
    (hb4 : (env.benv k).syncErr = none)
    (i : Nat)
    (hi1 : (bs.get ⟨k, hk⟩).extent.first ≤ i)
    (hi2 : i < (bs.get ⟨k, hk⟩).extent.second) :
    List.Sublist
      [Event.predictCall k, Event.syncCall k,
       Event.sendSuccess i
         ((outputShapes env.predict_proba env.num_class (bs.get ⟨k, hk⟩).shapes).getD
           (i - (bs.get ⟨k, hk⟩).extent.first) [])]
      (execute env n).events := by
  have hevEx : ∃ tail, (execute env n).events =
      (runBatches env 0 bs 1 0 0).events ++ tail := by
    unfold execute
    rw [hpre, hplan]
    cases hr : (runBatches env 0 bs 1 0 0).err with
    | some e2 =>
      exact ⟨abortSeg env n (runBatches env 0 bs 1 0 0).endReq 0
        (runBatches env 0 bs 1 0 0).clock e2, by simp only [hr]⟩
    | none =>
      exact ⟨(if env.finalStatFail then [Event.logStatError]
        else [Event.statAgg (runBatches env 0 bs 1 0 0).tot 0 0
          (runBatches env 0 bs 1 0 0).clock (runBatches env 0 bs 1 0 0).clock]),
        by simp only [hr]⟩
  obtain ⟨pre, post, c, t, hseg⟩ :=
    runBatches_reach env k bs 0 1 0 0 hk
      (fun j hj => by
        have h0 := hprev j hj
        rw [Nat.zero_add]
        exact h0)
  have hzk : (0 : Nat) + k = k := by omega
  rw [hzk] at hseg
  have hstep : stepEvents env k (bs.get ⟨k, hk⟩) c t =
      Event.predictCall k :: Event.syncCall k ::
        (sendSuccs (outputShapes env.predict_proba env.num_class (bs.get ⟨k, hk⟩).shapes)
            (bs.get ⟨k, hk⟩).extent.first (bs.get ⟨k, hk⟩).extent.second ++
          (if (env.benv k).statFail then [Event.logStatError]
           else [Event.statRange (bs.get ⟨k, hk⟩).extent.first
                   (bs.get ⟨k, hk⟩).extent.second true c (c + 1) (c + 2) (c + 3)]) ++
          releases (bs.get ⟨k, hk⟩).extent.first (bs.get ⟨k, hk⟩).extent.second) := by
    unfold stepEvents processBatch innerTry
    rw [hb1, hb2, hb3, hb4]
  obtain ⟨tail, hev⟩ := hevEx
  rw [hev, hseg]
  have h1 : List.Sublist
      [Event.predictCall k, Event.syncCall k,
       Event.sendSuccess i
         ((outputShapes env.predict_proba env.num_class (bs.get ⟨k, hk⟩).shapes).getD
           (i - (bs.get ⟨k, hk⟩).extent.first) [])]
      (stepEvents env k (bs.get ⟨k, hk⟩) c t) := by
    rw [hstep]
    refine List.Sublist.cons₂ _ (List.Sublist.cons₂ _ ?_)
    rw [List.singleton_sublist]
    exact List.mem_append_left _ (List.mem_append_left _
      (sendSuccess_mem_sendSuccs _ _ _ i hi1 hi2))
  exact (h1.trans ((List.sublist_append_right pre _).trans
    (List.sublist_append_left _ post))).trans (List.sublist_append_left _ tail)

theorem exec_sync_before_send_witness :
    List.Sublist [Event.predictCall 0, Event.syncCall 0, Event.sendSuccess 0 [4]]
      (execute envW 3).events := by
  have h := exec_sync_before_send envW 3
    [⟨⟨0, 2⟩, [[4, 3], [1, 3]]⟩, ⟨⟨2, 3⟩, [[8, 3]]⟩] 0
    rfl rfl (by decide)
    (fun j hj => absurd hj (by omega))
    rfl rfl rfl rfl 0 (by decide) (by decide)
  exact h

/-- Claim C5, amended. When the batch loop completes normally, the final
aggregate success statistic carries `total_inference_count` — the row
count accumulated during output-shape planning over *all* planned
batches, including batches whose compute later failed (line 193 runs
before the inner try) — together with the invocation's start timestamp
(clock reading 0, duplicated as compute-start) and its end reading. -/
theorem exec_final_aggregate (env : Env) (n : Nat) (bs : List Batch)
    (hpre : env.preErr = none) (hplan : env.planOutcome = Except.ok bs)
    (hcons : ∀ j, (env.benv j).constructErr = none)
    (hstat : env.finalStatFail = false) :
    (execute env n).ret = none ∧
    (execute env n).events =
      (runBatches env 0 bs 1 0 0).events ++
        [Event.statAgg (totalRows bs) 0 0
          (runBatches env 0 bs 1 0 0).clock (runBatches env 0 bs 1 0 0).clock] := by
  obtain ⟨h1, h2, h3⟩ := runBatches_noAbort env hcons bs 0 1 0 0
  constructor
  · unfold execute
    rw [hpre, hplan]
    simp [h1]
  · unfold execute
    rw [hpre, hplan]
    simp only [h1, hstat]
    rw [h2]
    simp

theorem exec_final_aggregate_witness :
    (execute envW 3).ret = none ∧
    (execute envW 3).events =
      (runBatches envW 0 [⟨⟨0, 2⟩, [[4, 3], [1, 3]]⟩, ⟨⟨2, 3⟩, [[8, 3]]⟩] 1 0 0).events ++
        [Event.statAgg 13 0 0
          (runBatches envW 0 [⟨⟨0, 2⟩, [[4, 3], [1, 3]]⟩, ⟨⟨2, 3⟩, [[8, 3]]⟩] 1 0 0).clock
          (runBatches envW 0 [⟨⟨0, 2⟩, [[4, 3], [1, 3]]⟩, ⟨⟨2, 3⟩, [[8, 3]]⟩] 1 0 0).clock] := by
  have h := exec_final_aggregate envW 3 [⟨⟨0, 2⟩, [[4, 3], [1, 3]]⟩, ⟨⟨2, 3⟩, [[8, 3]]⟩]
    rfl rfl (fun j => by by_cases hj : j = 1 <;> simp [envW, hj]) rfl
  exact h

/-- Is the event a success response? -/
def isSuccessSend : Event → Bool
  | .sendSuccess _ _ => true
  | _ => false

/-- Environment refuting the "only successfully handled units" reading of
the final aggregate count: one batch of 5 rows whose `predict` call
throws error 7. -/
def envC5 : Env :=
  { preErr := none
    planOutcome := Except.ok [⟨⟨0, 1⟩, [[5, 2]]⟩]
    benv := fun _ => ⟨none, none, some 7, none, false⟩
    abortStatFail := false
    finalStatFail := false
    predict_proba := false
    num_class := 0 }

/-- Claim C5, counterexample. In `envC5` no request is handled successfully
(no success response exists in the trace), yet the final aggregate
success statistic reports unit count 5 — the rows of the compute-failed
batch — not 0.  The claim that the reported unit count "counts only
successfully handled units" is therefore false on the code: line 193
accumulates `total_inference_count` during shape planning, before the
compute outcome is known. -/
theorem exec_final_aggregate_cex :
    (execute envC5 1).ret = none ∧
    (execute envC5 1).events.countP isSuccessSend = 0 ∧
    Event.statAgg 5 0 0 5 5 ∈ (execute envC5 1).events ∧
    ¬ (Event.statAgg 0 0 0 5 5 ∈ (execute envC5 1).events) := by
  decide

theorem sendErrs_filter (e lo hi : Nat) :
    (sendErrs e lo hi).filter isCore = sendErrs e lo hi := by
  apply List.filter_eq_self.mpr
  intro a ha
  unfold sendErrs at ha
  rcases List.mem_map.mp ha with ⟨j, _, rfl⟩
  rfl

theorem sendSuccs_filter (os : List (List Nat)) (lo hi : Nat) :
    (sendSuccs os lo hi).filter isCore = sendSuccs os lo hi := by
  apply List.filter_eq_self.mpr
  intro a ha
  unfold sendSuccs at ha
  rcases List.mem_map.mp ha with ⟨j, _, rfl⟩
  rfl

theorem releases_filter (lo hi : Nat) :
    (releases lo hi).filter isCore = releases lo hi := by
  apply List.filter_eq_self.mpr
  intro a ha
  unfold releases at ha
  rcases List.mem_map.mp ha with ⟨j, _, rfl⟩
  rfl

/-- The statistics slot is entirely telemetry. -/
theorem statSlot_filter (c : Bool) (ev : Event) (h : isCore ev = false) :
    (if c then [Event.logStatError] else [ev]).filter isCore = [] := by
  cases c
  · simp [List.filter_cons, h]
  · simp [List.filter_cons, isCore]

/-- Whether the statistic is recorded or its failure is logged, exactly
one event occupies the slot. -/
theorem statSlot_length (c : Bool) (ev : Event) :
    (if c then [Event.logStatError] else [ev]).length = 1 := by
  cases c <;> rfl

theorem failSeg_filter (be : BatchEnv) (b : Batch) (e bStart clock : Nat) :
    (failSeg be b e bStart clock).1.filter isCore =
      sendErrs e b.extent.first b.extent.second ++
        releases b.extent.first b.extent.second := by
  unfold failSeg
  rw [List.filter_append, List.filter_append, sendErrs_filter, releases_filter,
    statSlot_filter be.statFail
      (Event.statRange b.extent.first b.extent.second false bStart bStart clock (clock + 1))
      rfl,
    List.append_nil]

theorem failSeg_length (be : BatchEnv) (b : Batch) (e bStart clock : Nat) :
    (failSeg be b e bStart clock).1.length =
      (sendErrs e b.extent.first b.extent.second).length + 1 +
        (releases b.extent.first b.extent.second).length := by
  unfold failSeg
  rw [List.length_append, List.length_append, statSlot_length]


/-- Two batch environments that inject the same compute-stage outcomes
(but may differ in statistics failures) produce the same core events, the
same number of events and the same clock in the inner try: a statistics
failure is only replaced by one log entry in the same slot. -/
theorem innerTry_agree (be be' : BatchEnv) (bIdx : Nat) (b : Batch) (pp : Bool)
    (nc bStart clock : Nat)
    (h1 : be'.outputErr = be.outputErr)
    (h2 : be'.predictErr = be.predictErr)
    (h3 : be'.syncErr = be.syncErr) :
    (innerTry be' bIdx b pp nc bStart clock).1.filter isCore =
      (innerTry be bIdx b pp nc bStart clock).1.filter isCore ∧
    (innerTry be' bIdx b pp nc bStart clock).1.length =
      (innerTry be bIdx b pp nc bStart clock).1.length ∧
    (innerTry be' bIdx b pp nc bStart clock).2 =
      (innerTry be bIdx b pp nc bStart clock).2 := by
  unfold innerTry
  rw [h1, h2, h3]
  cases ho : be.outputErr with
  | some e =>
    exact ⟨by rw [failSeg_filter, failSeg_filter],
      by rw [failSeg_length, failSeg_length], rfl⟩
  | none =>
    cases hp : be.predictErr with
    | some e =>
      refine ⟨?_, ?_, rfl⟩
      · simp only [List.filter_cons]
        rw [failSeg_filter, failSeg_filter]
      · simp only [List.length_cons]
        rw [failSeg_length, failSeg_length]
    | none =>
      cases hs : be.syncErr with
      | some e =>
        refine ⟨?_, ?_, rfl⟩
        · simp only [List.filter_cons]
          rw [failSeg_filter, failSeg_filter]
        · simp only [List.length_cons]
          rw [failSeg_length, failSeg_length]
      | none =>
        refine ⟨?_, ?_, rfl⟩
        · simp only [List.filter_cons, List.filter_append]
          rw [sendSuccs_filter, releases_filter,
            statSlot_filter be'.statFail
              (Event.statRange b.extent.first b.extent.second true bStart clock
                (clock + 1) (clock + 2)) rfl,
            statSlot_filter be.statFail
              (Event.statRange b.extent.first b.extent.second true bStart clock
                (clock + 1) (clock + 2)) rfl]
        · simp only [List.length_cons, List.length_append]
          rw [statSlot_length, statSlot_length]

theorem abortSeg_filter (env : Env) (n endReq allStart clock e : Nat) :
    (abortSeg env n endReq allStart clock e).filter isCore =
      sendErrs e endReq n ++ releases endReq n := by
  unfold abortSeg
  rw [List.filter_append, List.filter_append, sendErrs_filter, releases_filter,
    statSlot_filter env.abortStatFail
      (Event.statRange endReq n false allStart allStart clock clock) rfl,
    List.append_nil]

theorem abortSeg_length (env : Env) (n endReq allStart clock e : Nat) :
    (abortSeg env n endReq allStart clock e).length =
      (sendErrs e endReq n).length + 1 + (releases endReq n).length := by
  unfold abortSeg
  rw [List.length_append, List.length_append, statSlot_length]

/-- The batch loop under the stat-failure-free environment produces the
same clock, count, progress, escape status, core events and event count
as under the original environment. -/
theorem runBatches_clear (env : Env) :
    ∀ (bs : List Batch) (bIdx clock tot endReq : Nat),
      (runBatches (clearStatFails env) bIdx bs clock tot endReq).clock =
        (runBatches env bIdx bs clock tot endReq).clock ∧
      (runBatches (clearStatFails env) bIdx bs clock tot endReq).tot =
        (runBatches env bIdx bs clock tot endReq).tot ∧
      (runBatches (clearStatFails env) bIdx bs clock tot endReq).endReq =
        (runBatches env bIdx bs clock tot endReq).endReq ∧
      (runBatches (clearStatFails env) bIdx bs clock tot endReq).err =
        (runBatches env bIdx bs clock tot endReq).err ∧
      (runBatches (clearStatFails env) bIdx bs clock tot endReq).events.filter isCore =
        (runBatches env bIdx bs clock tot endReq).events.filter isCore ∧
      (runBatches (clearStatFails env) bIdx bs clock tot endReq).events.length =
        (runBatches env bIdx bs clock tot endReq).events.length := by
  intro bs
  induction bs with
  | nil => intro bIdx clock tot endReq; exact ⟨rfl, rfl, rfl, rfl, rfl, rfl⟩
  | cons b rest ih =>
    intro bIdx clock tot endReq
    have hpp : (clearStatFails env).predict_proba = env.predict_proba := rfl
    have hnc : (clearStatFails env).num_class = env.num_class := rfl
    have hce : ((clearStatFails env).benv bIdx).constructErr =
        (env.benv bIdx).constructErr := rfl
    cases hc : (env.benv bIdx).constructErr with
    | some e =>
      simp [runBatches, processBatch, hce, hc]
    | none =>
      simp only [runBatches, processBatch, hce, hc, hpp, hnc]
      obtain ⟨hi1, hi2, hi3⟩ :=
        innerTry_agree (env.benv bIdx) ((clearStatFails env).benv bIdx) bIdx b
          env.predict_proba env.num_class clock (clock + 1) rfl rfl rfl
      rw [hi3]
      obtain ⟨j1, j2, j3, j4, j5, j6⟩ := ih (bIdx + 1)
        (innerTry (env.benv bIdx) bIdx b env.predict_proba env.num_class clock (clock + 1)).2
        (tot + batchRows b.shapes) b.extent.second
      refine ⟨j1, j2, j3, j4, ?_, ?_⟩
      · rw [List.filter_append, List.filter_append, hi1, j5]
      · rw [List.length_append, List.length_append, hi2, j6]

/-- Equation for `execute` on the pre-planning-failure path. -/
theorem execute_pre (env : Env) (n : Nat) (e : Err) (h : env.preErr = some e) :
    execute env n = ⟨[], some e⟩ := by
  unfold execute
  rw [h]

/-- Equation for `execute` when `get_input_batches` throws. -/
theorem execute_planErr (env : Env) (n : Nat) (e : Err)
    (hpre : env.preErr = none) (h : env.planOutcome = Except.error e) :
    execute env n = ⟨abortSeg env n 0 0 1 e, some e⟩ := by
  unfold execute
  rw [hpre, h]

/-- Equation for `execute` when the batch loop escapes to the outer catch. -/
theorem execute_runAbort (env : Env) (n : Nat) (bs : List Batch) (e : Err)
    (hpre : env.preErr = none) (hplan : env.planOutcome = Except.ok bs)
    (hr : (runBatches env 0 bs 1 0 0).err = some e) :
    execute env n =
      ⟨(runBatches env 0 bs 1 0 0).events ++
         abortSeg env n (runBatches env 0 bs 1 0 0).endReq 0
           (runBatches env 0 bs 1 0 0).clock e,
       some e⟩ := by
  unfold execute
  rw [hpre, hplan]
  simp only [hr]

/-- Equation for `execute` when the batch loop completes. -/
theorem execute_runOk (env : Env) (n : Nat) (bs : List Batch)
    (hpre : env.preErr = none) (hplan : env.planOutcome = Except.ok bs)
    (hr : (runBatches env 0 bs 1 0 0).err = none) :
    execute env n =
      ⟨(runBatches env 0 bs 1 0 0).events ++
         (if env.finalStatFail then [Event.logStatError]
          else [Event.statAgg (runBatches env 0 bs 1 0 0).tot 0 0
                  (runBatches env 0 bs 1 0 0).clock (runBatches env 0 bs 1 0 0).clock]),
       none⟩ := by
  unfold execute
  rw [hpre, hplan]
  simp only [hr]

/-- Claim C6. Statistics failures are caught and logged and change nothing
else: removing every injected statistics failure (the per-batch, abort
and final reporting calls) leaves the invocation's return value, its core
event trace (responses, releases, compute calls — hence routing and
release behaviour) and even the number of trace events (each failed
report is replaced by exactly one log entry in the same slot) unchanged. -/
theorem exec_stat_failures_invisible (env : Env) (n : Nat) :
    (execute (clearStatFails env) n).ret = (execute env n).ret ∧
    (execute (clearStatFails env) n).events.filter isCore =
      (execute env n).events.filter isCore ∧
    (execute (clearStatFails env) n).events.length =
      (execute env n).events.length := by
  have hpre : (clearStatFails env).preErr = env.preErr := rfl
  have hplan : (clearStatFails env).planOutcome = env.planOutcome := rfl
  have hfin : (clearStatFails env).finalStatFail = false := rfl
  cases hp0 : env.preErr with
  | some e =>
    rw [execute_pre env n e hp0, execute_pre (clearStatFails env) n e (hpre.trans hp0)]
    exact ⟨rfl, rfl, rfl⟩
  | none =>
    cases hpl : env.planOutcome with
    | error e =>
      rw [execute_planErr env n e hp0 hpl,
        execute_planErr (clearStatFails env) n e (hpre.trans hp0) (hplan.trans hpl)]
      refine ⟨rfl, ?_, ?_⟩
      · rw [abortSeg_filter, abortSeg_filter]
      · rw [abortSeg_length, abortSeg_length]
    | ok bs =>
      obtain ⟨j1, j2, j3, j4, j5, j6⟩ := runBatches_clear env bs 0 1 0 0
      cases hr : (runBatches env 0 bs 1 0 0).err with
      | some e =>
        rw [execute_runAbort env n bs e hp0 hpl hr,
          execute_runAbort (clearStatFails env) n bs e (hpre.trans hp0)
            (hplan.trans hpl) (j4.trans hr)]
        refine ⟨rfl, ?_, ?_⟩
        · rw [List.filter_append, List.filter_append, j5,
            abortSeg_filter, abortSeg_filter, j3]
        · rw [List.length_append, List.length_append, j6,
            abortSeg_length, abortSeg_length, j3]
      | none =>
        rw [execute_runOk env n bs hp0 hpl hr,
          execute_runOk (clearStatFails env) n bs (hpre.trans hp0)
            (hplan.trans hpl) (j4.trans hr)]
        rw [hfin, j1, j2]
        refine ⟨rfl, ?_, ?_⟩
        · rw [List.filter_append, List.filter_append, j5,
            statSlot_filter false
              (Event.statAgg (runBatches env 0 bs 1 0 0).tot 0 0
                (runBatches env 0 bs 1 0 0).clock (runBatches env 0 bs 1 0 0).clock) rfl,
            statSlot_filter env.finalStatFail
              (Event.statAgg (runBatches env 0 bs 1 0 0).tot 0 0
                (runBatches env 0 bs 1 0 0).clock (runBatches env 0 bs 1 0 0).clock) rfl]
        · rw [List.length_append, List.length_append, j6,
            statSlot_length, statSlot_length]

/-- The failure statistic of the inner catch duplicates the batch-enter
timestamp as compute-enter and uses two consecutive fresh readings as
compute-exit and batch-exit. -/
theorem statRange_false_failSeg (be : BatchEnv) (b : Batch)
    (e bStart clock a b2 t1 t2 t3 t4 : Nat)
    (h : Event.statRange a b2 false t1 t2 t3 t4 ∈ (failSeg be b e bStart clock).1) :
    t2 = t1 ∧ t1 = bStart ∧ t4 = t3 + 1 := by
  unfold failSeg at h
  rcases List.mem_append.mp h with h | h
  · rcases List.mem_append.mp h with h | h
    · unfold sendErrs at h
      rcases List.mem_map.mp h with ⟨x, _, hx⟩
      cases hx
    · cases hs : be.statFail
      · rw [hs] at h
        simp at h
        omega
      · rw [hs] at h
        simp at h
  · unfold releases at h
    rcases List.mem_map.mp h with ⟨x, _, hx⟩
    cases hx

/-- Same fact for the whole inner try: its only failure statistic comes
from the inner catch. -/
theorem statRange_false_innerTry (be : BatchEnv) (bIdx : Nat) (b : Batch)
    (pp : Bool) (nc bStart clock a b2 t1 t2 t3 t4 : Nat)
    (h : Event.statRange a b2 false t1 t2 t3 t4 ∈
      (innerTry be bIdx b pp nc bStart clock).1) :
    t2 = t1 ∧ t1 = bStart ∧ t4 = t3 + 1 := by
  unfold innerTry at h
  cases ho : be.outputErr with
  | some e =>
    simp only [ho] at h
    exact statRange_false_failSeg be b e bStart clock a b2 t1 t2 t3 t4 h
  | none =>
    simp only [ho] at h
    cases hp : be.predictErr with
    | some e =>
      simp only [hp] at h
      rcases List.mem_cons.mp h with h | h
      · cases h
      · exact statRange_false_failSeg be b e bStart (clock + 1) a b2 t1 t2 t3 t4 h
    | none =>
      simp only [hp] at h
      cases hs : be.syncErr with
      | some e =>
        simp only [hs] at h
        rcases List.mem_cons.mp h with h | h
        · cases h
        · exact statRange_false_failSeg be b e bStart (clock + 2) a b2 t1 t2 t3 t4 h
      | none =>
        simp only [hs] at h
        rcases List.mem_cons.mp h with h | h
        · cases h
        · rcases List.mem_cons.mp h with h | h
          · cases h
          · rcases List.mem_append.mp h with h | h
            · rcases List.mem_append.mp h with h | h
              · unfold sendSuccs at h
                rcases List.mem_map.mp h with ⟨x, _, hx⟩
                cases hx
              · cases hsf : be.statFail
                · rw [hsf] at h
                  simp at h
                · rw [hsf] at h
                  simp at h
            · unfold releases at h
              rcases List.mem_map.mp h with ⟨x, _, hx⟩
              cases hx

/-- The inner-try clock never goes backwards. -/
theorem innerTry_clock_ge (be : BatchEnv) (bIdx : Nat) (b : Batch) (pp : Bool)
    (nc bStart clock : Nat) :
    clock ≤ (innerTry be bIdx b pp nc bStart clock).2 := by
  unfold innerTry failSeg
  cases be.outputErr <;> cases be.predictErr <;> cases be.syncErr <;> simp <;> omega

/-- All failure statistics of the batch loop (entered at a positive clock)
have compute-enter equal to batch-enter, a positive batch-enter reading,
and batch-exit one tick after compute-exit. -/
theorem statRange_false_runBatches (env : Env) (a b2 t1 t2 t3 t4 : Nat) :
    ∀ (bs : List Batch) (bIdx clock tot endReq : Nat), 1 ≤ clock →
      Event.statRange a b2 false t1 t2 t3 t4 ∈
        (runBatches env bIdx bs clock tot endReq).events →
      t2 = t1 ∧ 1 ≤ t1 ∧ t4 = t3 + 1 := by
  intro bs
  induction bs with
  | nil =>
    intro bIdx clock tot endReq hclock h
    simp [runBatches] at h
  | cons b rest ih =>
    intro bIdx clock tot endReq hclock h
    cases hc : (env.benv bIdx).constructErr with
    | some e =>
      simp only [runBatches, processBatch, hc] at h
      simp at h
    | none =>
      simp only [runBatches, processBatch, hc] at h
      rcases List.mem_append.mp h with h | h
      · obtain ⟨k1, k2, k3⟩ := statRange_false_innerTry (env.benv bIdx) bIdx b
          env.predict_proba env.num_class clock (clock + 1) a b2 t1 t2 t3 t4 h
        omega
      · have hclock2 : 1 ≤ (innerTry (env.benv bIdx) bIdx b env.predict_proba
            env.num_class clock (clock + 1)).2 := by
          have hge := innerTry_clock_ge (env.benv bIdx) bIdx b env.predict_proba
            env.num_class clock (clock + 1)
          omega
        exact ih (bIdx + 1) _ _ _ hclock2 h

/-- The outer catch's failure statistic duplicates the invocation start as
batch-enter and compute-enter, and one single reading as compute-exit and
batch-exit. -/
theorem statRange_false_abortSeg (env : Env)
    (n endReq allStart clock e a b2 t1 t2 t3 t4 : Nat)
    (h : Event.statRange a b2 false t1 t2 t3 t4 ∈
      abortSeg env n endReq allStart clock e) :
    t2 = t1 ∧ t1 = allStart ∧ t3 = t4 := by
  unfold abortSeg at h
  rcases List.mem_append.mp h with h | h
  · rcases List.mem_append.mp h with h | h
    · unfold sendErrs at h
      rcases List.mem_map.mp h with ⟨x, _, hx⟩
      cases hx
    · cases hs : env.abortStatFail
      · rw [hs] at h
        simp at h
        omega
      · rw [hs] at h
        simp at h
  · unfold releases at h
    rcases List.mem_map.mp h with ⟨x, _, hx⟩
    cases hx

/-- Claim C10. Failure telemetry carries synthetic compute intervals.
Every failure statistic in an invocation trace has its compute-enter
timestamp equal to its batch-enter timestamp (the code passes
`batch_start_time` twice on the per-batch failure path and
`all_start_time` twice on the planning-abort path).  In this model the
invocation-start reading is `0` and every per-batch reading is positive,
so `t1 = 0` identifies the planning-abort statistic: there the
compute-exit timestamp also equals the batch-exit timestamp (the code
passes `all_end_time` twice), while a per-batch failure statistic's
batch-exit is the reading immediately after its compute-exit (two
back-to-back `now()` calls). -/
theorem exec_failStat_synthetic (env : Env) (n : Nat) :
    ∀ a b2 t1 t2 t3 t4, Event.statRange a b2 false t1 t2 t3 t4 ∈ (execute env n).events →
      t2 = t1 ∧ (t1 = 0 → t3 = t4) ∧ (1 ≤ t1 → t4 = t3 + 1) := by
  intro a b2 t1 t2 t3 t4 h
  cases hp0 : env.preErr with
  | some e =>
    rw [execute_pre env n e hp0] at h
    simp at h
  | none =>
    cases hpl : env.planOutcome with
    | error e =>
      rw [execute_planErr env n e hp0 hpl] at h
      obtain ⟨k1, k2, k3⟩ :=
        statRange_false_abortSeg env n 0 0 1 e a b2 t1 t2 t3 t4 h
      omega
    | ok bs =>
      cases hr : (runBatches env 0 bs 1 0 0).err with
      | some e =>
        rw [execute_runAbort env n bs e hp0 hpl hr] at h
        rcases List.mem_append.mp h with h | h
        · obtain ⟨k1, k2, k3⟩ := statRange_false_runBatches env a b2 t1 t2 t3 t4
            bs 0 1 0 0 (by omega) h
          omega
        · obtain ⟨k1, k2, k3⟩ := statRange_false_abortSeg env n _ 0 _ e a b2 t1 t2 t3 t4 h
          omega
      | none =>
        rw [execute_runOk env n bs hp0 hpl hr] at h
        rcases List.mem_append.mp h with h | h
        · obtain ⟨k1, k2, k3⟩ := statRange_false_runBatches env a b2 t1 t2 t3 t4
            bs 0 1 0 0 (by omega) h
          omega
        · cases hf : env.finalStatFail
          · rw [hf] at h
            simp at h
          · rw [hf] at h
            simp at h

/-- Environment whose planner throws error 4 outright. -/
def envPlanErr : Env :=
  { preErr := none
    planOutcome := Except.error 4
    benv := fun _ => ⟨none, none, none, none, false⟩
    abortStatFail := false
    finalStatFail := false
    predict_proba := false
    num_class := 0 }

theorem exec_failStat_synthetic_witness :
    0 = 0 ∧ (0 = 0 → 1 = 1) ∧ (1 ≤ 0 → 1 = 1 + 1) :=
  exec_failStat_synthetic envPlanErr 2 0 2 0 0 1 1 (by decide)
